import Mathlib

/-!
Verification of the monitor orchestration subsystem of the clanker-spanker
repository: the control-loop program (src-tauri embedded script
monitor-pr-loop.sh), the frontend output listener (src/App.tsx), and the
monitor lifecycle manager.

The control loop is embedded from the shell script: external commands
(gh pr checks, gh api graphql) are modelled as oracle functions supplied by
an environment, and the bounded while-loops of the script are compiled to
structural recursion on an explicit budget that encodes the script's own
numeric bound (page cap 10, CI wait cap 3).
-/

namespace ClankerSpanker

/-! ## CI status query (monitor-pr-loop.sh, check_ci_status) -/

/-- One element of the JSON array produced by
`gh pr checks "$PR_NUM" --repo "$REPO" --json state,conclusion`. -/
structure Check where
  state : String
  conclusion : String
deriving DecidableEq

/-- jq's ascii_upcase: map a-z to A-Z, leave every other character
alone. -/
def ascii_upcase (s : String) : String :=
  String.mk (s.data.map fun c =>
    if decide ('a' ≤ c) && decide (c ≤ 'z') then Char.ofNat (c.toNat - 32) else c)

/-- check_ci_status from monitor-pr-loop.sh.  The input is the parsed
output of the `gh pr checks` pipeline: `none` models a failed `gh`
invocation or output that `jq` could not interpret (the shell variable
stays empty and `${result:-success}` substitutes "success"); `some checks`
models a successfully parsed JSON array.  The jq program is
`if length == 0 then "success" elif any(.conclusion | ascii_upcase == "FAILURE")
then "failure" elif any(.state | ascii_upcase | . == "PENDING" or . == "QUEUED")
then "pending" else "success" end`. -/
def check_ci_status (result : Option (List Check)) : String :=
  match result with
  | none => "success"
  | some checks =>
    if checks.length = 0 then "success"
    else if checks.any fun c => ascii_upcase c.conclusion == "FAILURE" then "failure"
    else if checks.any fun c => ascii_upcase c.state == "PENDING" || ascii_upcase c.state == "QUEUED" then "pending"
    else "success"

/-! ## Review-thread fetch (monitor-pr-loop.sh, fetch_threads) -/

/-- One node of the GraphQL reviewThreads query result. -/
structure Thread where
  id : String
  isResolved : Bool
deriving DecidableEq

/-- One page of the paginated GraphQL reviewThreads query: the `nodes`
array and `pageInfo.hasNextPage`.  A provider returning `none` models a
failed `gh api graphql` call or a response carrying an `errors` field. -/
structure Page where
  nodes : List Thread
  hasNextPage : Bool
deriving DecidableEq

/-- The `while true` pagination loop inside fetch_threads.  `page` is the
script's page counter (starting at 1); `budget` encodes the script's
safety bound `if [ $page -gt 10 ]; then break`: the loop may recurse only
while the incremented page stays at most 10, so the top-level call passes
budget = 10 - page = 9.  Returns the list of page numbers actually
queried, and the accumulated `all_threads` (`none` if a queried page
errored, in which case the script echoes "0" and returns early). -/
def fetch_go (provider : Nat → Option Page) : Nat → Nat → List Thread →
    List Nat × Option (List Thread)
  | page, 0, acc =>
    match provider page with
    | none => ([page], none)
    | some p => ([page], some (acc ++ p.nodes))
  | page, b + 1, acc =>
    match provider page with
    | none => ([page], none)
    | some p =>
      if p.hasNextPage = false then ([page], some (acc ++ p.nodes))
      else
        (page :: (fetch_go provider (page + 1) b (acc ++ p.nodes)).1,
         (fetch_go provider (page + 1) b (acc ++ p.nodes)).2)

/-- Result of one fetch_threads call: the count echoed to stdout (captured
by `current_count=$(fetch_threads)`), the contents of $THREADS_FILE after
the call, and the pages queried. -/
structure FetchOutcome where
  count : Nat
  threadsFile : Option (List Thread)
  queried : List Nat
deriving DecidableEq

/-- fetch_threads from monitor-pr-loop.sh: paginate (cursor modelled by
the page index), on any error echo "0" and return without touching
$THREADS_FILE, otherwise filter the accumulated threads to
`.isResolved == false`, write them to $THREADS_FILE and echo the length. -/
def fetch_threads (provider : Nat → Option Page) (threadsFile : Option (List Thread)) :
    FetchOutcome :=
  match fetch_go provider 1 9 [] with
  | (qs, none) => { count := 0, threadsFile := threadsFile, queried := qs }
  | (qs, some all) =>
    let unresolved := all.filter fun t => t.isResolved == false
    { count := unresolved.length, threadsFile := some unresolved, queried := qs }

/-! ## Marker protocol -/

/-- The structured marker lines echoed by monitor-pr-loop.sh. -/
inductive Marker where
  | iterationM (n m : Nat)
  | ciStatusM (s : String)
  | ciWaitM (k : Nat)
  | commentsFound (c : Nat)
  | sleepingM (m : Nat)
  | statusClean
  | statusMaxIterations
deriving DecidableEq

/-- The exact line echoed for each marker (max_ci_waits is the literal 3
in the script). -/
def renderMarker : Marker → String
  | .iterationM n m => "@@ITERATION:" ++ (toString n ++ ("/" ++ (toString m ++ "@@")))
  | .ciStatusM s => "@@CI_STATUS:" ++ (s ++ "@@")
  | .ciWaitM k => "@@CI_WAIT:" ++ (toString k ++ "/3@@")
  | .commentsFound c => "@@COMMENTS_FOUND:" ++ (toString c ++ "@@")
  | .sleepingM m => "@@SLEEPING:" ++ (toString m ++ "@@")
  | .statusClean => "@@STATUS:clean@@"
  | .statusMaxIterations => "@@STATUS:max_iterations@@"

/-! ## The CI pending wait loop (STEP 1 of the main loop) -/

/-- Outcome of the pending-wait loop: the value of ci_status afterwards,
the markers echoed inside the loop, and the seconds slept before each
re-query (`sleep 300`, five minutes per wait). -/
structure CiWaitOut where
  finalStatus : String
  markers : List Marker
  sleeps : List Nat
deriving DecidableEq

/-- The script's `while [ "$ci_status" = "pending" ] && [ $ci_waits -lt $max_ci_waits ]`
loop.  `q k` is the result of the k-th `gh pr checks` pipeline of this
iteration (k = 0 is the initial query before the loop); `waits` is the
ci_waits counter and `remaining` encodes max_ci_waits - ci_waits, so the
top-level call passes waits = 0, remaining = 3. -/
def ciWaitLoop (q : Nat → Option (List Check)) (status : String) (waits remaining : Nat) :
    CiWaitOut :=
  match remaining with
  | 0 => { finalStatus := status, markers := [], sleeps := [] }
  | r + 1 =>
    if status = "pending" then
      let w := waits + 1
      let s := check_ci_status (q w)
      let rest := ciWaitLoop q s w r
      { finalStatus := rest.finalStatus,
        markers := Marker.ciWaitM w :: Marker.ciStatusM s :: rest.markers,
        sleeps := 300 :: rest.sleeps }
    else { finalStatus := status, markers := [], sleeps := [] }

/-! ## The main loop of monitor-pr-loop.sh -/

/-- MAX_ITER and INTERVAL (script defaults 10 and 15). -/
structure Config where
  maxIter : Nat
  interval : Nat
deriving DecidableEq

/-- The external world as seen by one run of the script: `ci iter k` is
the parsed result of the k-th CI query of iteration `iter`, and
`pages iter pg` is the pg-th GraphQL page fetched during iteration
`iter`. -/
structure Env where
  ci : Nat → Nat → Option (List Check)
  pages : Nat → Nat → Option Page

/-- The filesystem state the script threads between iterations: the
known_thread_ids array of $STATE_FILE and the contents of
$THREADS_FILE. -/
structure LoopState where
  knownIds : List String
  threadsFile : Option (List Thread)
deriving DecidableEq

/-- Everything one iteration of the `for iter in $(seq 1 $MAX_ITER)` body
does that the spec talks about: the markers echoed, whether the clean
`exit 0` was taken, whether run_fix_ci ran, whether the
/handle-pr-comments invocation ran, the value of ci_status after STEP 1,
the CI-wait sleeps, the captured unresolved count, and the file state
afterwards. -/
structure IterResult where
  markers : List Marker
  cleanExit : Bool
  fixCiInvoked : Bool
  commentFixInvoked : Bool
  ciFinal : String
  ciSleeps : List Nat
  count : Nat
  state : LoopState

/-- One iteration of the main loop (STEP 1 through STEP 5).  On the clean
exit the script removes $STATE_FILE and $THREADS_FILE (`rm -f`), hence the
empty state in that branch. -/
def stepIter (env : Env) (cfg : Config) (iter : Nat) (st : LoopState) : IterResult :=
  let s0 := check_ci_status (env.ci iter 0)
  let w := ciWaitLoop (env.ci iter) s0 0 3
  let ciFinal := w.finalStatus
  let fixCi := ciFinal == "failure"
  let f := fetch_threads (env.pages iter) st.threadsFile
  if f.count = 0 ∧ ciFinal = "success" then
    { markers := Marker.iterationM iter cfg.maxIter :: Marker.ciStatusM s0 ::
        (w.markers ++ [Marker.statusClean]),
      cleanExit := true, fixCiInvoked := fixCi, commentFixInvoked := false,
      ciFinal := ciFinal, ciSleeps := w.sleeps, count := f.count,
      state := { knownIds := [], threadsFile := none } }
  else
    let currentIds := match f.threadsFile with
      | some ts => ts.map fun t => t.id
      | none => []
    { markers := Marker.iterationM iter cfg.maxIter :: Marker.ciStatusM s0 ::
        (w.markers ++ ((if 0 < f.count then [Marker.commentsFound f.count] else []) ++
          (if iter < cfg.maxIter then [Marker.sleepingM cfg.interval] else []))),
      cleanExit := false, fixCiInvoked := fixCi,
      commentFixInvoked := decide (0 < f.count),
      ciFinal := ciFinal, ciSleeps := w.sleeps, count := f.count,
      state := { knownIds := if 0 < f.count then currentIds else st.knownIds,
                 threadsFile := f.threadsFile } }

/-- The remainder of the run starting at iteration `iter` with `fuel`
iterations left (fuel = MAX_ITER - iter + 1 at the call sites; seq 1 0 is
empty, so fuel 0 falls through to the max_iterations epilogue).  Returns
the markers echoed and the process exit code. -/
def runFrom (env : Env) (cfg : Config) : Nat → LoopState → Nat → List Marker × Nat
  | _, _, 0 => ([Marker.statusMaxIterations], 1)
  | iter, st, fuel + 1 =>
    let r := stepIter env cfg iter st
    if r.cleanExit then (r.markers, 0)
    else
      let rest := runFrom env cfg (iter + 1) r.state fuel
      (r.markers ++ rest.1, rest.2)

/-- A whole run of monitor-pr-loop.sh.  $STATE_FILE is re-initialised with
known_thread_ids = [] at startup; `tf0` is whatever a previous run may
have left in $THREADS_FILE (the script does not clear it at startup). -/
def runLoop (env : Env) (cfg : Config) (tf0 : Option (List Thread)) : List Marker × Nat :=
  runFrom env cfg 1 { knownIds := [], threadsFile := tf0 } cfg.maxIter

/-! ## The frontend output listener (src/App.tsx, monitor:output) -/

/-- Character class [A-Z_] of the marker regex. -/
def isTagChar (c : Char) : Bool := (decide ('A' ≤ c) && decide (c ≤ 'Z')) || c == '_'

/-- The characters JavaScript's `.` (without the s flag) refuses to
match: LF, CR, LINE SEPARATOR, PARAGRAPH SEPARATOR. -/
def isLineTerm (c : Char) : Bool :=
  c == Char.ofNat 10 || c == Char.ofNat 13 || c == Char.ofNat 8232 || c == Char.ofNat 8233

/-- Matcher for the App.tsx regex /^@@[A-Z_]+:.+@@$/ over the line's
characters, returning the tag and payload on a match.  After the leading
"@@" the [A-Z_]+ group must end at the first character outside the class
(which the regex then requires to be the colon), and `.+@@$` forces the
line to end in "@@" with a non-empty payload free of line terminators in
between. -/
def markerSplit (cs : List Char) : Option (List Char × List Char) :=
  match cs with
  | c1 :: c2 :: rest =>
    if c1 = '@' ∧ c2 = '@' then
      match rest.dropWhile isTagChar with
      | c3 :: rest3 =>
        if c3 = ':' then
          if (rest.takeWhile isTagChar).length = 0 then none
          else if 3 ≤ rest3.length ∧ rest3.drop (rest3.length - 2) = ['@', '@'] ∧
              (rest3.take (rest3.length - 2)).all (fun c => !(isLineTerm c)) then
            some (rest.takeWhile isTagChar, rest3.take (rest3.length - 2))
          else none
        else none
      | [] => none
    else none
  | _ => none

/-- Tag and payload of a full-line marker, if the line is one. -/
def parseMarker (line : String) : Option (String × String) :=
  match markerSplit line.data with
  | some (t, p) => some (String.mk t, String.mk p)
  | none => none

/-- The classification App.tsx performs: line.match(/^@@[A-Z_]+:.+@@$/). -/
def isMarkerLine (line : String) : Bool := (parseMarker line).isSome

/-- The marker grammar as the spec words it: two at-signs, an
uppercase-and-underscore tag, a colon, a payload, two at-signs, filling
the entire line. -/
def markerShape (line : String) : Prop :=
  ∃ t p : String, line = "@@" ++ (t ++ (":" ++ (p ++ "@@"))) ∧
    t.data ≠ [] ∧ (∀ c ∈ t.data, isTagChar c = true) ∧
    p.data ≠ [] ∧ (∀ c ∈ p.data, isLineTerm c = false)

/-- JavaScript `array.slice(-100)`: the last at most n elements, in
order. -/
def lastN (n : Nat) (l : List String) : List String := l.drop (l.length - n)

/-- `[...prev, line].slice(-100)` from the App.tsx listener. -/
def appendBounded (prev : List String) (line : String) : List String :=
  lastN 100 (prev ++ [line])

/-- The monitor:output listener body for one monitor's buffer: marker
lines are filtered out (early return), every other line is appended under
the 100-line bound. -/
def monitorOutputListener (prev : List String) (line : String) : List String :=
  if isMarkerLine line then prev else appendBounded prev line

/-! ## Lifecycle Manager

Modelled from the spec: the Rust lifecycle manager
(src-tauri/src/monitor.rs, named by the repository README but absent from
the sources) owns the monitor registry; per spec section 5 all registry
mutations are serialized through a single coordination domain, so
concurrent calls are modelled as an arbitrary sequence of atomic
operations. -/

inductive MStatus where
  | running
  | sleeping
  | completed
  | failed
  | stopped
deriving DecidableEq

/-- Non-terminal statuses per the spec's state machine. -/
def MStatus.nonTerminal : MStatus → Bool
  | .running => true
  | .sleeping => true
  | _ => false

structure MonitorRec where
  mid : Nat
  prRef : String
  status : MStatus
deriving DecidableEq

structure MgrState where
  monitors : List MonitorRec
  nextId : Nat
deriving DecidableEq

inductive StartResult where
  | started (mid : Nat)
  | alreadyMonitoring
deriving DecidableEq

/-- Modelled from the spec: a non-terminal monitor for this PR exists. -/
def hasActiveFor (s : MgrState) (pr : String) : Bool :=
  s.monitors.any fun m => m.prRef == pr && m.status.nonTerminal

/-- Modelled from the spec: start(prRef) creates a running monitor unless
a non-terminal monitor for the PR exists, in which case it rejects with
AlreadyMonitoring and changes nothing. -/
def mgrStart (s : MgrState) (pr : String) : MgrState × StartResult :=
  if hasActiveFor s pr then (s, StartResult.alreadyMonitoring)
  else
    ({ monitors := s.monitors ++ [{ mid := s.nextId, prRef := pr, status := MStatus.running }],
       nextId := s.nextId + 1 },
     StartResult.started s.nextId)

/-- Supervisor events driving the state machine rows of spec section 4.3. -/
inductive MgrEvent where
  | iterationStart
  | sleepingEv
  | exitClean
  | exitMaxIterations
  | exitNoMarker
deriving DecidableEq

/-- Status assigned by each event row. -/
def eventStatus : MgrEvent → MStatus
  | .iterationStart => MStatus.running
  | .sleepingEv => MStatus.sleeping
  | .exitClean => MStatus.completed
  | .exitMaxIterations => MStatus.completed
  | .exitNoMarker => MStatus.failed

/-- Modelled from the spec: an event updates the addressed monitor only
while it is non-terminal (output arriving after a terminal transition must
not revive the monitor). -/
def mgrEvent (s : MgrState) (mid : Nat) (ev : MgrEvent) : MgrState :=
  { s with monitors := s.monitors.map fun m =>
      if m.mid == mid && m.status.nonTerminal then { m with status := eventStatus ev } else m }

/-- Modelled from the spec: stop marks a non-terminal monitor stopped and
is a NotActive no-op otherwise (the Bool reports whether it acted). -/
def mgrStop (s : MgrState) (mid : Nat) : MgrState × Bool :=
  if s.monitors.any fun m => m.mid == mid && m.status.nonTerminal then
    ({ s with monitors := s.monitors.map fun m =>
        if m.mid == mid && m.status.nonTerminal then { m with status := MStatus.stopped } else m },
     true)
  else (s, false)

/-- The serialized operations on the registry. -/
inductive MgrOp where
  | opStart (pr : String)
  | opStop (mid : Nat)
  | opEvent (mid : Nat) (ev : MgrEvent)

def mgrStep (s : MgrState) : MgrOp → MgrState
  | .opStart pr => (mgrStart s pr).1
  | .opStop mid => (mgrStop s mid).1
  | .opEvent mid ev => mgrEvent s mid ev

def mgrInit : MgrState := { monitors := [], nextId := 0 }

def mgrRun (ops : List MgrOp) : MgrState := ops.foldl mgrStep mgrInit

/-- Number of non-terminal monitors bound to a PR. -/
def activeCount (s : MgrState) (pr : String) : Nat :=
  s.monitors.countP fun m => m.prRef == pr && m.status.nonTerminal

/-! ## Concrete environments used by the witnesses -/

def cfg0 : Config := { maxIter := 10, interval := 15 }

def st0 : LoopState := { knownIds := [], threadsFile := none }

/-- All CI checks green, no review threads. -/
def envClean : Env :=
  { ci := fun _ _ => some [{ state := "COMPLETED", conclusion := "SUCCESS" }],
    pages := fun _ _ => some { nodes := [], hasNextPage := false } }

/-- Every CI query reports a pending check; no review threads. -/
def envPending : Env :=
  { ci := fun _ _ => some [{ state := "PENDING", conclusion := "" }],
    pages := fun _ _ => some { nodes := [], hasNextPage := false } }

/-- Every CI query fails outright (gh error), every thread page fails. -/
def envAllFail : Env :=
  { ci := fun _ _ => none,
    pages := fun _ _ => none }

/-- CI parses to an empty check list; the thread query errors. -/
def envCIEmptyFetchErr : Env :=
  { ci := fun _ _ => some [],
    pages := fun _ _ => none }

/-- A provider that always reports another page. -/
def providerAllNext : Nat → Option Page :=
  fun _ => some { nodes := [{ id := "T", isResolved := false }], hasNextPage := true }

/-- A registry holding one running monitor for PR octo/repo#1. -/
def sampleActive : MgrState :=
  { monitors := [{ mid := 0, prRef := "octo/repo#1", status := MStatus.running }], nextId := 1 }

/-- The nodes carried by one provider response (an errored page carries
none). -/
def pageNodes (o : Option Page) : List Thread :=
  match o with
  | some p => p.nodes
  | none => []

/-! ## Helper lemmas -/

lemma append_ne_of_take {p t : String} (k : Nat) (r : String) (hk : k ≤ p.data.length)
    (h : p.data.take k ≠ t.data.take k) : p ++ r ≠ t := by
  intro he
  apply h
  have hd : p.data ++ r.data = t.data := by rw [← String.data_append, he]
  rw [← hd, List.take_append_of_le_length hk]

lemma renderMarker_eq_clean (m : Marker) :
    renderMarker m = "@@STATUS:clean@@" ↔ m = Marker.statusClean := by
  cases m with
  | iterationM n mx =>
    simp only [renderMarker]
    exact ⟨fun h => absurd h (append_ne_of_take 3 _ (by decide) (by decide)),
      fun h => by simp at h⟩
  | ciStatusM s =>
    simp only [renderMarker]
    exact ⟨fun h => absurd h (append_ne_of_take 3 _ (by decide) (by decide)),
      fun h => by simp at h⟩
  | ciWaitM k =>
    simp only [renderMarker]
    exact ⟨fun h => absurd h (append_ne_of_take 3 _ (by decide) (by decide)),
      fun h => by simp at h⟩
  | commentsFound c =>
    simp only [renderMarker]
    exact ⟨fun h => absurd h (append_ne_of_take 3 _ (by decide) (by decide)),
      fun h => by simp at h⟩
  | sleepingM mm =>
    simp only [renderMarker]
    exact ⟨fun h => absurd h (append_ne_of_take 4 _ (by decide) (by decide)),
      fun h => by simp at h⟩
  | statusClean => simp [renderMarker]
  | statusMaxIterations =>
    simp only [renderMarker]
    exact ⟨fun h => absurd h (by decide), fun h => by simp at h⟩

lemma renderMarker_eq_maxIter (m : Marker) :
    renderMarker m = "@@STATUS:max_iterations@@" ↔ m = Marker.statusMaxIterations := by
  cases m with
  | iterationM n mx =>
    simp only [renderMarker]
    exact ⟨fun h => absurd h (append_ne_of_take 3 _ (by decide) (by decide)),
      fun h => by simp at h⟩
  | ciStatusM s =>
    simp only [renderMarker]
    exact ⟨fun h => absurd h (append_ne_of_take 3 _ (by decide) (by decide)),
      fun h => by simp at h⟩
  | ciWaitM k =>
    simp only [renderMarker]
    exact ⟨fun h => absurd h (append_ne_of_take 3 _ (by decide) (by decide)),
      fun h => by simp at h⟩
  | commentsFound c =>
    simp only [renderMarker]
    exact ⟨fun h => absurd h (append_ne_of_take 3 _ (by decide) (by decide)),
      fun h => by simp at h⟩
  | sleepingM mm =>
    simp only [renderMarker]
    exact ⟨fun h => absurd h (append_ne_of_take 4 _ (by decide) (by decide)),
      fun h => by simp at h⟩
  | statusClean =>
    simp only [renderMarker]
    exact ⟨fun h => absurd h (by decide), fun h => by simp at h⟩
  | statusMaxIterations => simp [renderMarker]

lemma mem_map_render_clean (ms : List Marker) :
    "@@STATUS:clean@@" ∈ ms.map renderMarker ↔ Marker.statusClean ∈ ms := by
  rw [List.mem_map]
  constructor
  · rintro ⟨m, hm, hr⟩
    rwa [(renderMarker_eq_clean m).1 hr] at hm
  · intro hm
    exact ⟨Marker.statusClean, hm, rfl⟩

lemma mem_map_render_maxIter (ms : List Marker) :
    "@@STATUS:max_iterations@@" ∈ ms.map renderMarker ↔ Marker.statusMaxIterations ∈ ms := by
  rw [List.mem_map]
  constructor
  · rintro ⟨m, hm, hr⟩
    rwa [(renderMarker_eq_maxIter m).1 hr] at hm
  · intro hm
    exact ⟨Marker.statusMaxIterations, hm, rfl⟩

lemma ciWaitLoop_markers_shape (q : Nat → Option (List Check)) :
    ∀ r s w m, m ∈ (ciWaitLoop q s w r).markers →
      (∃ k, m = Marker.ciWaitM k) ∨ ∃ s2, m = Marker.ciStatusM s2 := by
  intro r
  induction r with
  | zero => intro s w m hm; simp [ciWaitLoop] at hm
  | succ r ih =>
    intro s w m hm
    by_cases hs : s = "pending"
    · simp only [ciWaitLoop, if_pos hs, List.mem_cons] at hm
      rcases hm with rfl | rfl | hm
      · exact Or.inl ⟨w + 1, rfl⟩
      · exact Or.inr ⟨_, rfl⟩
      · exact ih _ _ m hm
    · simp [ciWaitLoop, if_neg hs] at hm

lemma ciWaitLoop_not_clean (q : Nat → Option (List Check)) (r : Nat) (s : String) (w : Nat) :
    Marker.statusClean ∉ (ciWaitLoop q s w r).markers := by
  intro hm
  rcases ciWaitLoop_markers_shape q r s w _ hm with ⟨k, hk⟩ | ⟨s2, hk⟩ <;> simp at hk

lemma ciWaitLoop_not_maxIter (q : Nat → Option (List Check)) (r : Nat) (s : String) (w : Nat) :
    Marker.statusMaxIterations ∉ (ciWaitLoop q s w r).markers := by
  intro hm
  rcases ciWaitLoop_markers_shape q r s w _ hm with ⟨k, hk⟩ | ⟨s2, hk⟩ <;> simp at hk

lemma ciWaitLoop_of_ne (q : Nat → Option (List Check)) (s : String) (w r : Nat)
    (h : s ≠ "pending") : ciWaitLoop q s w r = { finalStatus := s, markers := [], sleeps := [] } := by
  cases r <;> simp [ciWaitLoop, h]

lemma stepIter_count (env : Env) (cfg : Config) (iter : Nat) (st : LoopState) :
    (stepIter env cfg iter st).count = (fetch_threads (env.pages iter) st.threadsFile).count := by
  simp only [stepIter]
  split <;> rfl

lemma stepIter_ciFinal (env : Env) (cfg : Config) (iter : Nat) (st : LoopState) :
    (stepIter env cfg iter st).ciFinal =
      (ciWaitLoop (env.ci iter) (check_ci_status (env.ci iter 0)) 0 3).finalStatus := by
  simp only [stepIter]
  split <;> rfl

lemma stepIter_clean_iff (env : Env) (cfg : Config) (iter : Nat) (st : LoopState) :
    (stepIter env cfg iter st).cleanExit = true ↔
      ((stepIter env cfg iter st).count = 0 ∧ (stepIter env cfg iter st).ciFinal = "success") := by
  rw [stepIter_count, stepIter_ciFinal]
  simp only [stepIter]
  split
  case isTrue h => simpa using h
  case isFalse h => simpa using h

lemma stepIter_mem_clean (env : Env) (cfg : Config) (iter : Nat) (st : LoopState) :
    Marker.statusClean ∈ (stepIter env cfg iter st).markers ↔
      (stepIter env cfg iter st).cleanExit = true := by
  simp only [stepIter]
  split
  · simp
  · simp only [List.mem_cons, List.mem_append]
    constructor
    · rintro (h | h | h | h)
      · simp at h
      · simp at h
      · exact absurd h (ciWaitLoop_not_clean _ _ _ _)
      · rcases h with h | h <;> split at h <;> simp at h
    · intro h; simp at h

lemma stepIter_not_maxIter (env : Env) (cfg : Config) (iter : Nat) (st : LoopState) :
    Marker.statusMaxIterations ∉ (stepIter env cfg iter st).markers := by
  simp only [stepIter]
  split <;> simp only [List.mem_cons, List.mem_append]
  · rintro (h | h | h | h)
    · simp at h
    · simp at h
    · exact absurd h (ciWaitLoop_not_maxIter _ _ _ _)
    · simp at h
  · rintro (h | h | h | h)
    · simp at h
    · simp at h
    · exact absurd h (ciWaitLoop_not_maxIter _ _ _ _)
    · rcases h with h | h <;> split at h <;> simp at h

lemma runFrom_exit (env : Env) (cfg : Config) :
    ∀ fuel iter st,
      ((runFrom env cfg iter st fuel).2 = 0 ∨ (runFrom env cfg iter st fuel).2 = 1) ∧
      ((runFrom env cfg iter st fuel).2 = 0 ↔
        Marker.statusClean ∈ (runFrom env cfg iter st fuel).1) ∧
      ((runFrom env cfg iter st fuel).2 = 1 ↔
        Marker.statusMaxIterations ∈ (runFrom env cfg iter st fuel).1) := by
  intro fuel
  induction fuel with
  | zero =>
    intro iter st
    refine ⟨Or.inr rfl, ?_, ?_⟩ <;> simp [runFrom]
  | succ fuel ih =>
    intro iter st
    by_cases hc : (stepIter env cfg iter st).cleanExit = true
    · have hr : runFrom env cfg iter st (fuel + 1) = ((stepIter env cfg iter st).markers, 0) := by
        simp [runFrom, hc]
      rw [hr]
      exact ⟨Or.inl rfl,
        ⟨fun _ => (stepIter_mem_clean env cfg iter st).2 hc, fun _ => rfl⟩,
        ⟨fun h => by omega, fun h => absurd h (stepIter_not_maxIter env cfg iter st)⟩⟩
    · have hr : runFrom env cfg iter st (fuel + 1) =
          ((stepIter env cfg iter st).markers ++
            (runFrom env cfg (iter + 1) (stepIter env cfg iter st).state fuel).1,
           (runFrom env cfg (iter + 1) (stepIter env cfg iter st).state fuel).2) := by
        simp [runFrom, hc]
      obtain ⟨h01, h0, h1⟩ := ih (iter + 1) (stepIter env cfg iter st).state
      rw [hr]
      refine ⟨h01, ?_, ?_⟩
      · simp only [List.mem_append]
        constructor
        · intro h; exact Or.inr (h0.1 h)
        · rintro (h | h)
          · exact absurd ((stepIter_mem_clean env cfg iter st).1 h) hc
          · exact h0.2 h
      · simp only [List.mem_append]
        constructor
        · intro h; exact Or.inr (h1.1 h)
        · rintro (h | h)
          · exact absurd h (stepIter_not_maxIter env cfg iter st)
          · exact h1.2 h

/-! ## Claim theorems -/

/-- C1: an iteration of the control loop emits the terminal clean marker
and takes the clean `exit 0` if and only if the unresolved-thread count
fetched in that iteration is 0 and the CI status held at that point is
"success"; when the clean exit is taken the whole loop stops there with
exit code 0. -/
theorem claim_C1_clean_exit_iff (env : Env) (cfg : Config) (iter : Nat) (st : LoopState)
    (fuel : Nat) :
    ((stepIter env cfg iter st).cleanExit = true ↔
      ((stepIter env cfg iter st).count = 0 ∧ (stepIter env cfg iter st).ciFinal = "success")) ∧
    (Marker.statusClean ∈ (stepIter env cfg iter st).markers ↔
      (stepIter env cfg iter st).cleanExit = true) ∧
    ((stepIter env cfg iter st).cleanExit = true →
      runFrom env cfg iter st (fuel + 1) = ((stepIter env cfg iter st).markers, 0)) := by
  refine ⟨stepIter_clean_iff env cfg iter st, stepIter_mem_clean env cfg iter st, ?_⟩
  intro hc
  simp [runFrom, hc]

theorem claim_C1_witness :
    runFrom envClean cfg0 1 st0 10 = ((stepIter envClean cfg0 1 st0).markers, 0) :=
  (claim_C1_clean_exit_iff envClean cfg0 1 st0 9).2.2 (by decide)

/-- C2: a run of the control loop exits 0 exactly when it emitted the
line @@STATUS:clean@@ and exits 1 exactly when it emitted the line
@@STATUS:max_iterations@@; in particular, whenever no iteration took the
clean exit, the run emits the max_iterations marker and exits with the
non-zero code 1. -/
theorem claim_C2_exit_codes (env : Env) (cfg : Config) (tf0 : Option (List Thread)) :
    ((runLoop env cfg tf0).2 = 0 ∨ (runLoop env cfg tf0).2 = 1) ∧
    ((runLoop env cfg tf0).2 = 0 ↔
      "@@STATUS:clean@@" ∈ (runLoop env cfg tf0).1.map renderMarker) ∧
    ((runLoop env cfg tf0).2 = 1 ↔
      "@@STATUS:max_iterations@@" ∈ (runLoop env cfg tf0).1.map renderMarker) ∧
    (Marker.statusClean ∉ (runLoop env cfg tf0).1 →
      (runLoop env cfg tf0).2 = 1 ∧ Marker.statusMaxIterations ∈ (runLoop env cfg tf0).1) := by
  have e : runLoop env cfg tf0 =
      runFrom env cfg 1 { knownIds := [], threadsFile := tf0 } cfg.maxIter := rfl
  obtain ⟨h01, h0, h1⟩ := runFrom_exit env cfg cfg.maxIter 1 { knownIds := [], threadsFile := tf0 }
  rw [e]
  refine ⟨h01, ?_, ?_, ?_⟩
  · rw [mem_map_render_clean]; exact h0
  · rw [mem_map_render_maxIter]; exact h1
  · intro hn
    have hne : (runFrom env cfg 1 { knownIds := [], threadsFile := tf0 } cfg.maxIter).2 ≠ 0 :=
      fun h => hn (h0.1 h)
    have h2 : (runFrom env cfg 1 { knownIds := [], threadsFile := tf0 } cfg.maxIter).2 = 1 := by
      rcases h01 with h | h
      · exact absurd h hne
      · exact h
    exact ⟨h2, h1.1 h2⟩

theorem claim_C2_witness :
    (runLoop envPending { maxIter := 2, interval := 1 } none).2 = 1 ∧
    Marker.statusMaxIterations ∈ (runLoop envPending { maxIter := 2, interval := 1 } none).1 :=
  (claim_C2_exit_codes envPending { maxIter := 2, interval := 1 } none).2.2.2 (by decide)

/-! ## Lemmas about the pagination loop -/

lemma fetch_go_bounds (provider : Nat → Option Page) :
    ∀ budget page acc,
      (∀ q ∈ (fetch_go provider page budget acc).1, page ≤ q ∧ q ≤ page + budget) ∧
      (fetch_go provider page budget acc).1.length ≤ budget + 1 := by
  intro budget
  induction budget with
  | zero =>
    intro page acc
    cases hp : provider page with
    | none =>
      simp only [fetch_go, hp]
      exact ⟨fun q hq => by simp only [List.mem_singleton] at hq; omega, by simp⟩
    | some p =>
      simp only [fetch_go, hp]
      exact ⟨fun q hq => by simp only [List.mem_singleton] at hq; omega, by simp⟩
  | succ b ih =>
    intro page acc
    cases hp : provider page with
    | none =>
      simp only [fetch_go, hp]
      exact ⟨fun q hq => by simp only [List.mem_singleton] at hq; omega, by simp⟩
    | some p =>
      by_cases hnx : p.hasNextPage = false
      · simp only [fetch_go, hp, if_pos hnx]
        exact ⟨fun q hq => by simp only [List.mem_singleton] at hq; omega, by simp⟩
      · simp only [fetch_go, hp, if_neg hnx]
        constructor
        · intro q hq
          rcases List.mem_cons.1 hq with rfl | hq
          · omega
          · have := (ih (page + 1) (acc ++ p.nodes)).1 q hq
            omega
        · have := (ih (page + 1) (acc ++ p.nodes)).2
          simp only [List.length_cons]
          omega

lemma fetch_go_all_next (provider : Nat → Option Page)
    (hmore : ∀ k, ∃ p, provider k = some p ∧ p.hasNextPage = true) :
    ∀ budget page acc, (fetch_go provider page budget acc).1.length = budget + 1 := by
  intro budget
  induction budget with
  | zero =>
    intro page acc
    obtain ⟨p, hp, hn⟩ := hmore page
    simp [fetch_go, hp]
  | succ b ih =>
    intro page acc
    obtain ⟨p, hp, hn⟩ := hmore page
    have hnx : ¬p.hasNextPage = false := by simp [hn]
    simp only [fetch_go, hp, if_neg hnx, List.length_cons, ih (page + 1) (acc ++ p.nodes)]

lemma fetch_go_acc (provider : Nat → Option Page) :
    ∀ budget page acc qs all,
      fetch_go provider page budget acc = (qs, some all) →
      all = acc ++ (qs.map fun q => pageNodes (provider q)).flatten := by
  intro budget
  induction budget with
  | zero =>
    intro page acc qs all h
    cases hp : provider page with
    | none => simp only [fetch_go, hp, Prod.mk.injEq] at h; exact absurd h.2 (by simp)
    | some p =>
      simp only [fetch_go, hp, Prod.mk.injEq, Option.some.injEq] at h
      obtain ⟨h1, h2⟩ := h
      subst h1
      rw [← h2]
      simp [pageNodes, hp]
  | succ b ih =>
    intro page acc qs all h
    cases hp : provider page with
    | none => simp only [fetch_go, hp, Prod.mk.injEq] at h; exact absurd h.2 (by simp)
    | some p =>
      by_cases hnx : p.hasNextPage = false
      · simp only [fetch_go, hp, if_pos hnx, Prod.mk.injEq, Option.some.injEq] at h
        obtain ⟨h1, h2⟩ := h
        subst h1
        rw [← h2]
        simp [pageNodes, hp]
      · simp only [fetch_go, hp, if_neg hnx, Prod.mk.injEq] at h
        obtain ⟨h1, h2⟩ := h
        have hrec : fetch_go provider (page + 1) b (acc ++ p.nodes) =
            ((fetch_go provider (page + 1) b (acc ++ p.nodes)).1, some all) := by
          rw [← h2]
        have hall := ih (page + 1) (acc ++ p.nodes) _ all hrec
        subst h1
        rw [hall]
        simp [pageNodes, hp, List.append_assoc]

lemma fetch_go_err (provider : Nat → Option Page) :
    ∀ budget page acc k, page ≤ k → k ≤ page + budget → provider k = none →
      (∀ j, page ≤ j → j < k → ∃ p, provider j = some p ∧ p.hasNextPage = true) →
      (fetch_go provider page budget acc).2 = none := by
  intro budget
  induction budget with
  | zero =>
    intro page acc k hk1 hk2 herr hprev
    have he : k = page := by omega
    subst he
    simp [fetch_go, herr]
  | succ b ih =>
    intro page acc k hk1 hk2 herr hprev
    by_cases hkp : k = page
    · subst hkp
      simp [fetch_go, herr]
    · obtain ⟨p, hp, hn⟩ := hprev page (Nat.le_refl _) (by omega)
      have hnx : ¬p.hasNextPage = false := by simp [hn]
      simp only [fetch_go, hp, if_neg hnx]
      exact ih (page + 1) (acc ++ p.nodes) k (by omega) (by omega) herr
        (fun j hj1 hj2 => hprev j (by omega) hj2)

lemma fetch_threads_queried (provider : Nat → Option Page) (tf : Option (List Thread)) :
    (fetch_threads provider tf).queried = (fetch_go provider 1 9 []).1 := by
  unfold fetch_threads
  cases hfg : fetch_go provider 1 9 [] with
  | mk qs r => cases r <;> simp

lemma fetch_threads_err (provider : Nat → Option Page) (tf : Option (List Thread))
    (h : (fetch_go provider 1 9 []).2 = none) :
    (fetch_threads provider tf).count = 0 ∧ (fetch_threads provider tf).threadsFile = tf := by
  unfold fetch_threads
  cases hfg : fetch_go provider 1 9 [] with
  | mk qs r =>
    rw [hfg] at h
    simp only at h
    subst h
    simp

lemma fetch_threads_ok (provider : Nat → Option Page) (tf : Option (List Thread))
    (qs : List Nat) (all : List Thread) (h : fetch_go provider 1 9 [] = (qs, some all)) :
    (fetch_threads provider tf).threadsFile =
      some (all.filter fun t => t.isResolved == false) ∧
    (fetch_threads provider tf).count = (all.filter fun t => t.isResolved == false).length := by
  unfold fetch_threads
  rw [h]
  exact ⟨rfl, rfl⟩

/-- C7: fetch_threads queries at most 10 pages (pages 1 through 10), and
exactly 10 when the provider claims a next page on every response; on a
successful fetch the accumulated thread list is exactly the concatenation
of the nodes of the queried pages, and the threads file it writes holds
exactly those fetched threads whose isResolved field is false. -/
theorem claim_C7_fetch_pagination (provider : Nat → Option Page) (tf : Option (List Thread)) :
    ((fetch_threads provider tf).queried.length ≤ 10 ∧
      ∀ q ∈ (fetch_threads provider tf).queried, 1 ≤ q ∧ q ≤ 10) ∧
    ((∀ k, ∃ p, provider k = some p ∧ p.hasNextPage = true) →
      (fetch_threads provider tf).queried.length = 10) ∧
    (∀ qs all, fetch_go provider 1 9 [] = (qs, some all) →
      all = (qs.map fun q => pageNodes (provider q)).flatten ∧
      (fetch_threads provider tf).threadsFile =
        some (all.filter fun t => t.isResolved == false) ∧
      (fetch_threads provider tf).count = (all.filter fun t => t.isResolved == false).length ∧
      ∀ t, t ∈ all.filter (fun t2 => t2.isResolved == false) ↔ t ∈ all ∧ t.isResolved = false) := by
  refine ⟨?_, ?_, ?_⟩
  · rw [fetch_threads_queried]
    obtain ⟨hb, hl⟩ := fetch_go_bounds provider 9 1 []
    exact ⟨hl, fun q hq => by have := hb q hq; omega⟩
  · intro hmore
    rw [fetch_threads_queried]
    exact fetch_go_all_next provider hmore 9 1 []
  · intro qs all h
    refine ⟨?_, (fetch_threads_ok provider tf qs all h).1,
      (fetch_threads_ok provider tf qs all h).2, ?_⟩
    · simpa using fetch_go_acc provider 9 1 [] qs all h
    · intro t
      rw [List.mem_filter]
      simp

theorem claim_C7_witness :
    (fetch_threads providerAllNext none).queried.length = 10 :=
  (claim_C7_fetch_pagination providerAllNext none).2.1 (fun _k => ⟨_, rfl, rfl⟩)

/-- C10: when a page of the review-thread query errors (after any run of
pages that all reported a next page), fetch_threads reports count 0 and
leaves the threads file untouched; if the CI status held in iteration 1
is "success", the run then takes the clean exit: exit code 0 with the
clean marker emitted, without ever having observed the PR's threads. -/
theorem claim_C10_fetch_error_clean_exit (env : Env) (cfg : Config) (tf0 : Option (List Thread))
    (k : Nat) (hk1 : 1 ≤ k) (hk2 : k ≤ 10) (herr : env.pages 1 k = none)
    (hprev : ∀ j, 1 ≤ j → j < k → ∃ p, env.pages 1 j = some p ∧ p.hasNextPage = true)
    (hci : check_ci_status (env.ci 1 0) = "success") (hmax : 1 ≤ cfg.maxIter) :
    (fetch_threads (env.pages 1) tf0).count = 0 ∧
    (fetch_threads (env.pages 1) tf0).threadsFile = tf0 ∧
    (runLoop env cfg tf0).2 = 0 ∧
    Marker.statusClean ∈ (runLoop env cfg tf0).1 := by
  have hgo : (fetch_go (env.pages 1) 1 9 []).2 = none :=
    fetch_go_err (env.pages 1) 9 1 [] k hk1 (by omega) herr hprev
  obtain ⟨hc0, htf⟩ := fetch_threads_err (env.pages 1) tf0 hgo
  have hclean : (stepIter env cfg 1 { knownIds := [], threadsFile := tf0 }).cleanExit = true := by
    rw [stepIter_clean_iff]
    refine ⟨?_, ?_⟩
    · rw [stepIter_count]
      exact hc0
    · rw [stepIter_ciFinal, hci, ciWaitLoop_of_ne _ _ _ _ (by decide)]
  obtain ⟨n, hn⟩ : ∃ n, cfg.maxIter = n + 1 := ⟨cfg.maxIter - 1, by omega⟩
  have hrun : runLoop env cfg tf0 =
      ((stepIter env cfg 1 { knownIds := [], threadsFile := tf0 }).markers, 0) := by
    unfold runLoop
    rw [hn]
    simp [runFrom, hclean]
  refine ⟨hc0, htf, ?_, ?_⟩
  · rw [hrun]
  · rw [hrun]
    exact (stepIter_mem_clean env cfg 1 { knownIds := [], threadsFile := tf0 }).2 hclean

lemma stepIter_sleeps (env : Env) (cfg : Config) (iter : Nat) (st : LoopState) :
    (stepIter env cfg iter st).ciSleeps =
      (ciWaitLoop (env.ci iter) (check_ci_status (env.ci iter 0)) 0 3).sleeps := by
  simp only [stepIter]
  split <;> rfl

lemma stepIter_fixCi (env : Env) (cfg : Config) (iter : Nat) (st : LoopState) :
    (stepIter env cfg iter st).fixCiInvoked =
      ((ciWaitLoop (env.ci iter) (check_ci_status (env.ci iter 0)) 0 3).finalStatus == "failure") := by
  simp only [stepIter]
  split <;> rfl

lemma stepIter_commentFix (env : Env) (cfg : Config) (iter : Nat) (st : LoopState) :
    (stepIter env cfg iter st).commentFixInvoked =
      (!(stepIter env cfg iter st).cleanExit &&
        decide (0 < (stepIter env cfg iter st).count)) := by
  simp only [stepIter]
  split
  · simp
  · simp

/-- C9: check_ci_status is total with values in {success, failure,
pending}: it returns "success" when the checks query fails or parses to
nothing, and when the check list is empty; consequently an iteration in
which every CI query and every thread-page query fails still satisfies
the clean-exit condition and emits the clean marker. -/
theorem claim_C9_ci_status_defaults :
    (∀ r, check_ci_status r = "success" ∨ check_ci_status r = "failure" ∨
      check_ci_status r = "pending") ∧
    check_ci_status none = "success" ∧
    check_ci_status (some []) = "success" ∧
    (∀ cfg iter st,
      (stepIter envAllFail cfg iter st).ciFinal = "success" ∧
      (stepIter envAllFail cfg iter st).cleanExit = true ∧
      Marker.statusClean ∈ (stepIter envAllFail cfg iter st).markers) := by
  refine ⟨?_, rfl, rfl, ?_⟩
  · intro r
    cases r with
    | none => exact Or.inl rfl
    | some checks =>
      simp only [check_ci_status]
      by_cases hl : checks.length = 0
      · rw [if_pos hl]
        exact Or.inl rfl
      · rw [if_neg hl]
        by_cases hf : (checks.any fun c => ascii_upcase c.conclusion == "FAILURE") = true
        · rw [if_pos hf]
          exact Or.inr (Or.inl rfl)
        · rw [if_neg hf]
          by_cases hpd : (checks.any fun c =>
              ascii_upcase c.state == "PENDING" || ascii_upcase c.state == "QUEUED") = true
          · rw [if_pos hpd]
            exact Or.inr (Or.inr rfl)
          · rw [if_neg hpd]
            exact Or.inl rfl
  · intro cfg iter st
    have hci : check_ci_status (envAllFail.ci iter 0) = "success" := rfl
    have hfinal : (stepIter envAllFail cfg iter st).ciFinal = "success" := by
      rw [stepIter_ciFinal, hci, ciWaitLoop_of_ne _ _ _ _ (by decide)]
    have hcount : (stepIter envAllFail cfg iter st).count = 0 := by
      rw [stepIter_count]
      exact (fetch_threads_err (envAllFail.pages iter) st.threadsFile rfl).1
    have hclean := (stepIter_clean_iff envAllFail cfg iter st).2 ⟨hcount, hfinal⟩
    exact ⟨hfinal, hclean, (stepIter_mem_clean _ _ _ _).2 hclean⟩

lemma ciWaitLoop_sleeps_le (q : Nat → Option (List Check)) :
    ∀ r s w, (ciWaitLoop q s w r).sleeps.length ≤ r := by
  intro r
  induction r with
  | zero => intro s w; simp [ciWaitLoop]
  | succ r ih =>
    intro s w
    by_cases hs : s = "pending"
    · simp only [ciWaitLoop, if_pos hs, List.length_cons]
      have := ih (check_ci_status (q (w + 1))) (w + 1)
      omega
    · simp [ciWaitLoop, if_neg hs]

/-- C4: when the initial CI query of an iteration and the three re-queries
all report pending, the wait loop performs exactly three five-minute
(300-second) sleeps with their CI_WAIT and CI_STATUS markers, the held
status stays "pending", and the iteration proceeds without aborting:
run_fix_ci is not invoked, the clean exit is not taken, and the iteration
reaches the comment-checking step (the fetched count decides the
comment-fix invocation). -/
theorem claim_C4_pending_nonblocking (env : Env) (cfg : Config) (iter : Nat) (st : LoopState)
    (h0 : check_ci_status (env.ci iter 0) = "pending")
    (h1 : check_ci_status (env.ci iter 1) = "pending")
    (h2 : check_ci_status (env.ci iter 2) = "pending")
    (h3 : check_ci_status (env.ci iter 3) = "pending") :
    (∀ s0 : String, (ciWaitLoop (env.ci iter) s0 0 3).sleeps.length ≤ 3) ∧
    (ciWaitLoop (env.ci iter) (check_ci_status (env.ci iter 0)) 0 3).markers =
      [Marker.ciWaitM 1, Marker.ciStatusM "pending", Marker.ciWaitM 2, Marker.ciStatusM "pending",
       Marker.ciWaitM 3, Marker.ciStatusM "pending"] ∧
    (stepIter env cfg iter st).ciSleeps = [300, 300, 300] ∧
    (stepIter env cfg iter st).ciFinal = "pending" ∧
    (stepIter env cfg iter st).fixCiInvoked = false ∧
    (stepIter env cfg iter st).cleanExit = false ∧
    (stepIter env cfg iter st).count = (fetch_threads (env.pages iter) st.threadsFile).count ∧
    (stepIter env cfg iter st).commentFixInvoked =
      decide (0 < (fetch_threads (env.pages iter) st.threadsFile).count) := by
  have hw : ciWaitLoop (env.ci iter) (check_ci_status (env.ci iter 0)) 0 3 =
      { finalStatus := "pending",
        markers := [Marker.ciWaitM 1, Marker.ciStatusM "pending", Marker.ciWaitM 2,
          Marker.ciStatusM "pending", Marker.ciWaitM 3, Marker.ciStatusM "pending"],
        sleeps := [300, 300, 300] } := by
    rw [h0]
    simp [ciWaitLoop, h1, h2, h3]
  have hfinal : (stepIter env cfg iter st).ciFinal = "pending" := by
    rw [stepIter_ciFinal, hw]
  have hclean : (stepIter env cfg iter st).cleanExit = false := by
    cases hb : (stepIter env cfg iter st).cleanExit with
    | false => rfl
    | true =>
      obtain ⟨hc, hs⟩ := (stepIter_clean_iff env cfg iter st).1 hb
      have : ("pending" : String) = "success" := hfinal.symm.trans hs
      simp at this
  refine ⟨fun s0 => ciWaitLoop_sleeps_le (env.ci iter) 3 s0 0,
    by rw [hw], ?_, hfinal, ?_, hclean, stepIter_count env cfg iter st, ?_⟩
  · rw [stepIter_sleeps, hw]
  · rw [stepIter_fixCi, hw]
    decide
  · rw [stepIter_commentFix, hclean, stepIter_count]
    simp

theorem claim_C4_witness :
    (stepIter envPending cfg0 1 st0).ciSleeps = [300, 300, 300] ∧
    (stepIter envPending cfg0 1 st0).ciFinal = "pending" ∧
    (stepIter envPending cfg0 1 st0).fixCiInvoked = false ∧
    (stepIter envPending cfg0 1 st0).cleanExit = false :=
  have h := claim_C4_pending_nonblocking envPending cfg0 1 st0
    (by decide) (by decide) (by decide) (by decide)
  ⟨h.2.2.1, h.2.2.2.1, h.2.2.2.2.1, h.2.2.2.2.2.1⟩

theorem claim_C10_witness :
    (fetch_threads (envCIEmptyFetchErr.pages 1) (some [{ id := "x", isResolved := true }])).count = 0 ∧
    (fetch_threads (envCIEmptyFetchErr.pages 1)
      (some [{ id := "x", isResolved := true }])).threadsFile =
        some [{ id := "x", isResolved := true }] ∧
    (runLoop envCIEmptyFetchErr cfg0 (some [{ id := "x", isResolved := true }])).2 = 0 ∧
    Marker.statusClean ∈
      (runLoop envCIEmptyFetchErr cfg0 (some [{ id := "x", isResolved := true }])).1 :=
  claim_C10_fetch_error_clean_exit envCIEmptyFetchErr cfg0
    (some [{ id := "x", isResolved := true }]) 1 (by decide) (by decide) rfl
    (fun j hj1 hj2 => by omega) (by decide) (by decide)

/-! ## Lifecycle Manager lemmas -/

lemma countP_map_le {α : Type} (p : α → Bool) (f : α → α)
    (h : ∀ a, p (f a) = true → p a = true) :
    ∀ l : List α, (l.map f).countP p ≤ l.countP p := by
  intro l
  induction l with
  | nil => simp
  | cons a t ih =>
    simp only [List.map_cons, List.countP_cons]
    by_cases hfa : p (f a) = true
    · rw [if_pos hfa, if_pos (h a hfa)]
      omega
    · rw [if_neg hfa]
      split <;> omega

lemma hasActiveFor_false_count (s : MgrState) (pr : String)
    (h : hasActiveFor s pr = false) : activeCount s pr = 0 := by
  unfold hasActiveFor at h
  unfold activeCount
  rw [List.countP_eq_zero]
  intro m hm
  have := List.any_eq_false.1 h m hm
  simpa using this

lemma mgrStep_inv (s : MgrState) (op : MgrOp)
    (hs : ∀ pr, activeCount s pr ≤ 1) : ∀ pr, activeCount (mgrStep s op) pr ≤ 1 := by
  intro pr
  cases op with
  | opStart pr2 =>
    show activeCount (mgrStart s pr2).1 pr ≤ 1
    unfold mgrStart
    by_cases ha : hasActiveFor s pr2 = true
    · rw [if_pos ha]
      exact hs pr
    · rw [if_neg ha]
      simp only [activeCount, List.countP_append]
      by_cases hpr : pr2 = pr
      · subst hpr
        have h0 : activeCount s pr2 = 0 :=
          hasActiveFor_false_count s pr2 (Bool.not_eq_true _ ▸ ha)
        unfold activeCount at h0
        rw [h0]
        simp [MStatus.nonTerminal, List.countP_cons]
      · have hc1 : List.countP
            (fun (m : MonitorRec) => m.prRef == pr && m.status.nonTerminal)
            [{ mid := s.nextId, prRef := pr2, status := MStatus.running }] = 0 := by
          simp [List.countP_cons, hpr, MStatus.nonTerminal]
        rw [hc1]
        have := hs pr
        unfold activeCount at this
        omega
  | opStop mid =>
    show activeCount (mgrStop s mid).1 pr ≤ 1
    unfold mgrStop
    by_cases ha : (s.monitors.any fun m => m.mid == mid && m.status.nonTerminal) = true
    · rw [if_pos ha]
      simp only [activeCount]
      refine le_trans (countP_map_le _ _ ?_ s.monitors) (hs pr)
      intro m hm
      by_cases hc : (m.mid == mid && m.status.nonTerminal) = true
      · rw [if_pos hc] at hm
        simp [MStatus.nonTerminal] at hm
      · rw [if_neg hc] at hm
        exact hm
    · rw [if_neg ha]
      exact hs pr
  | opEvent mid ev =>
    show activeCount (mgrEvent s mid ev) pr ≤ 1
    unfold mgrEvent
    simp only [activeCount]
    refine le_trans (countP_map_le _ _ ?_ s.monitors) (hs pr)
    intro m hm
    by_cases hc : (m.mid == mid && m.status.nonTerminal) = true
    · rw [if_pos hc] at hm
      simp only [Bool.and_eq_true] at hm hc ⊢
      exact ⟨hm.1, hc.2⟩
    · rw [if_neg hc] at hm
      exact hm

lemma mgrRun_inv_aux : ∀ (ops : List MgrOp) (s : MgrState),
    (∀ pr, activeCount s pr ≤ 1) → ∀ pr, activeCount (ops.foldl mgrStep s) pr ≤ 1 := by
  intro ops
  induction ops with
  | nil => intro s hs; exact hs
  | cons op rest ih =>
    intro s hs
    exact ih (mgrStep s op) (mgrStep_inv s op hs)

/-- C3: from the initial empty registry, every serialized sequence of
start, stop and supervisor-event operations preserves the invariant that
at most one monitor with status running or sleeping exists per PR
reference; a start issued while such a monitor exists is rejected with
AlreadyMonitoring and leaves the registry untouched. -/
theorem claim_C3_at_most_one_active :
    (∀ ops pr, activeCount (mgrRun ops) pr ≤ 1) ∧
    (∀ s pr, hasActiveFor s pr = true →
      mgrStart s pr = (s, StartResult.alreadyMonitoring)) := by
  constructor
  · intro ops pr
    exact mgrRun_inv_aux ops mgrInit (fun pr2 => by simp [activeCount, mgrInit]) pr
  · intro s pr h
    unfold mgrStart
    rw [if_pos h]

theorem claim_C3_witness :
    mgrStart sampleActive "octo/repo#1" = (sampleActive, StartResult.alreadyMonitoring) :=
  claim_C3_at_most_one_active.2 sampleActive "octo/repo#1" (by decide)

/-! ## Output sink lemmas -/

lemma lastN_append (l m : List String) :
    lastN 100 (lastN 100 l ++ m) = lastN 100 (l ++ m) := by
  unfold lastN
  rw [List.drop_append_eq_append_drop, List.drop_append_eq_append_drop, List.drop_drop]
  simp only [List.length_append, List.length_drop]
  congr 1
  · congr 1
    omega
  · congr 1
    omega

lemma foldl_appendBounded : ∀ (lines l : List String),
    List.foldl appendBounded (lastN 100 l) lines = lastN 100 (l ++ lines) := by
  intro lines
  induction lines with
  | nil => intro l; simp [List.foldl]
  | cons x xs ih =>
    intro l
    rw [List.foldl_cons]
    have hx : appendBounded (lastN 100 l) x = lastN 100 (l ++ [x]) := lastN_append l [x]
    rw [hx, ih (l ++ [x])]
    simp

/-- C8: the slice(-100) append keeps the buffer at no more than 100
lines; while under the bound the new line is simply appended, at the
bound the oldest line is evicted first and the retained lines keep their
order; consequently a buffer built from scratch always holds exactly the
most recent at-most-100 appended lines in arrival order. -/
theorem claim_C8_output_buffer_bound :
    (∀ prev line, (appendBounded prev line).length ≤ 100) ∧
    (∀ prev line, prev.length < 100 → appendBounded prev line = prev ++ [line]) ∧
    (∀ prev line, prev.length = 100 → appendBounded prev line = prev.drop 1 ++ [line]) ∧
    (∀ lines, List.foldl appendBounded [] lines = lastN 100 lines) := by
  refine ⟨?_, ?_, ?_, ?_⟩
  · intro prev line
    simp only [appendBounded, lastN, List.length_drop]
    omega
  · intro prev line h
    simp only [appendBounded, lastN]
    have h0 : (prev ++ [line]).length - 100 = 0 := by
      simp only [List.length_append, List.length_cons, List.length_nil]
      omega
    rw [h0, List.drop_zero]
  · intro prev line h
    simp only [appendBounded, lastN]
    have h1 : (prev ++ [line]).length - 100 = 1 := by
      simp only [List.length_append, List.length_cons, List.length_nil]
      omega
    rw [h1, List.drop_append_of_le_length (by omega)]
  · intro lines
    simpa using foldl_appendBounded lines []

theorem claim_C8_witness : appendBounded ["a"] "b" = ["a"] ++ ["b"] :=
  claim_C8_output_buffer_bound.2.1 ["a"] "b" (by decide)

/-- C6 as stated is false: the monitor:output listener drops marker lines
instead of appending them; at the concrete marker line @@ITERATION:1/10@@
the buffer stays empty. -/
theorem claim_C6_counterexample :
    monitorOutputListener [] "@@ITERATION:1/10@@" = [] ∧
    "@@ITERATION:1/10@@" ∉ monitorOutputListener [] "@@ITERATION:1/10@@" := by
  decide

/-- C6 (amended): the listener appends every non-marker line to the
monitor's buffer under the 100-line bound, but filters out full-line
markers, which are never appended. -/
theorem claim_C6_marker_lines_filtered (prev : List String) (line : String) :
    (isMarkerLine line = true → monitorOutputListener prev line = prev) ∧
    (isMarkerLine line = false →
      monitorOutputListener prev line = appendBounded prev line ∧
      line ∈ monitorOutputListener prev line) := by
  constructor
  · intro h
    simp [monitorOutputListener, h]
  · intro h
    have he : monitorOutputListener prev line = appendBounded prev line := by
      simp [monitorOutputListener, h]
    refine ⟨he, ?_⟩
    rw [he]
    simp only [appendBounded, lastN]
    rw [List.drop_append_of_le_length (by
      simp only [List.length_append, List.length_cons, List.length_nil]
      omega)]
    simp

theorem claim_C6_witness :
    monitorOutputListener ["a"] "@@STATUS:clean@@" = ["a"] ∧
    "hello" ∈ monitorOutputListener ["a"] "hello" :=
  ⟨(claim_C6_marker_lines_filtered ["a"] "@@STATUS:clean@@").1 (by decide),
   ((claim_C6_marker_lines_filtered ["a"] "hello").2 (by decide)).2⟩

/-! ## Marker classifier lemmas -/

lemma takeWhile_all_append {α : Type} (p : α → Bool) :
    ∀ (l₁ : List α) (x : α) (l₂ : List α), (∀ a ∈ l₁, p a = true) → p x = false →
      (l₁ ++ x :: l₂).takeWhile p = l₁ ∧ (l₁ ++ x :: l₂).dropWhile p = x :: l₂ := by
  intro l₁
  induction l₁ with
  | nil =>
    intro x l₂ h hx
    simp [List.takeWhile_cons, List.dropWhile_cons, hx]
  | cons a tl ih =>
    intro x l₂ h hx
    have ha : p a = true := h a (List.mem_cons_self a tl)
    have hih := ih x l₂ (fun b hb => h b (List.mem_cons_of_mem a hb)) hx
    simp [List.takeWhile_cons, List.dropWhile_cons, ha, hih.1, hih.2]

lemma markerSplit_sound : ∀ (cs t p : List Char),
    markerSplit cs = some (t, p) →
    cs = '@' :: '@' :: (t ++ ':' :: (p ++ ['@', '@'])) ∧
    t ≠ [] ∧ (∀ c ∈ t, isTagChar c = true) ∧
    p ≠ [] ∧ (∀ c ∈ p, isLineTerm c = false) := by
  intro cs t p h
  cases cs with
  | nil => exact Option.noConfusion h
  | cons c1 cs1 =>
    cases cs1 with
    | nil => exact Option.noConfusion h
    | cons c2 rest =>
      simp only [markerSplit] at h
      by_cases h12 : c1 = '@' ∧ c2 = '@'
      case neg => rw [if_neg h12] at h; exact Option.noConfusion h
      case pos =>
        rw [if_pos h12] at h
        obtain ⟨rfl, rfl⟩ := h12
        cases hdw : rest.dropWhile isTagChar with
        | nil => rw [hdw] at h; exact Option.noConfusion h
        | cons c3 rest3 =>
          simp only [hdw] at h
          by_cases h3 : c3 = ':'
          case neg => rw [if_neg h3] at h; exact Option.noConfusion h
          case pos =>
            subst h3
            simp only [if_pos rfl] at h
            by_cases h0 : (rest.takeWhile isTagChar).length = 0
            case pos => rw [if_pos h0] at h; exact Option.noConfusion h
            case neg =>
              rw [if_neg h0] at h
              by_cases hc : 3 ≤ rest3.length ∧ rest3.drop (rest3.length - 2) = ['@', '@'] ∧
                  (rest3.take (rest3.length - 2)).all (fun c => !(isLineTerm c))
              case neg => rw [if_neg hc] at h; exact Option.noConfusion h
              case pos =>
                rw [if_pos hc] at h
                obtain ⟨hc1, hc2, hc3⟩ := hc
                injection h with hpair
                rw [Prod.mk.injEq] at hpair
                obtain ⟨ht', hp'⟩ := hpair
                subst ht'
                subst hp'
                refine ⟨?_, ?_, ?_, ?_, ?_⟩
                · rw [← hc2, List.take_append_drop, ← hdw, List.takeWhile_append_dropWhile]
                · intro hnil
                  rw [hnil] at h0
                  exact h0 rfl
                · intro c hc
                  exact List.all_eq_true.1 List.all_takeWhile c hc
                · intro hnil
                  have hta := List.take_append_drop (rest3.length - 2) rest3
                  rw [hnil, hc2] at hta
                  have h2 : rest3.length = 2 := by rw [← hta]; rfl
                  omega
                · intro c hcm
                  have := List.all_eq_true.1 hc3 c hcm
                  simpa using this

lemma markerSplit_complete (t p : List Char)
    (ht : t ≠ []) (htag : ∀ c ∈ t, isTagChar c = true)
    (hp : p ≠ []) (hterm : ∀ c ∈ p, isLineTerm c = false) :
    markerSplit ('@' :: '@' :: (t ++ ':' :: (p ++ ['@', '@']))) = some (t, p) := by
  have hcolon : isTagChar ':' = false := by decide
  obtain ⟨htw, hdw⟩ := takeWhile_all_append isTagChar t ':' (p ++ ['@', '@']) htag hcolon
  have hlen : (p ++ ['@', '@']).length = p.length + 2 := by simp
  have hplen : 1 ≤ p.length := by
    cases p with
    | nil => exact absurd rfl hp
    | cons a b => simp
  have hn2 : (p ++ ['@', '@']).length - 2 = p.length := by omega
  have hdrop : (p ++ ['@', '@']).drop ((p ++ ['@', '@']).length - 2) = ['@', '@'] := by
    rw [hn2]
    exact List.drop_left p ['@', '@']
  have htake : (p ++ ['@', '@']).take ((p ++ ['@', '@']).length - 2) = p := by
    rw [hn2]
    exact List.take_left p ['@', '@']
  have hne : ¬(t.length = 0) := by
    rw [List.length_eq_zero]
    exact ht
  have hcnd : 3 ≤ (p ++ ['@', '@']).length ∧
      (p ++ ['@', '@']).drop ((p ++ ['@', '@']).length - 2) = ['@', '@'] ∧
      ((p ++ ['@', '@']).take ((p ++ ['@', '@']).length - 2)).all
        (fun c => !(isLineTerm c)) = true := by
    refine ⟨by omega, hdrop, ?_⟩
    rw [htake, List.all_eq_true]
    intro c hc
    simp [hterm c hc]
  simp only [markerSplit, hdw, htw]
  rw [if_pos ⟨trivial, trivial⟩, if_neg hne, if_pos hcnd, htake]
  rw [if_pos trivial]

/-- C5: a line is classified as a marker exactly when the whole line has
the shape of the regex ^@@[A-Z_]+:.+@@$ — two at-signs, a non-empty
uppercase-or-underscore tag, a colon, a non-empty payload free of line
terminators, two at-signs; "@@FOO:bar/baz@@" parses as tag FOO with
payload bar/baz, while "some text @@not@@ a marker" is not a marker. -/
theorem claim_C5_marker_regex :
    (∀ line, isMarkerLine line = true ↔ markerShape line) ∧
    parseMarker "@@FOO:bar/baz@@" = some ("FOO", "bar/baz") ∧
    isMarkerLine "some text @@not@@ a marker" = false := by
  refine ⟨?_, by decide, by decide⟩
  intro line
  constructor
  · intro h
    unfold isMarkerLine parseMarker at h
    cases hms : markerSplit line.data with
    | none => rw [hms] at h; simp at h
    | some tp =>
      obtain ⟨t, p⟩ := tp
      obtain ⟨hcs, ht, htag, hp, hterm⟩ := markerSplit_sound line.data t p hms
      refine ⟨String.mk t, String.mk p, ?_, ht, htag, hp, hterm⟩
      apply String.ext
      rw [hcs]
      rfl
  · rintro ⟨t, p, hline, ht, htag, hp, hterm⟩
    unfold isMarkerLine parseMarker
    have hms : markerSplit line.data = some (t.data, p.data) := by
      have hd : line.data = '@' :: '@' :: (t.data ++ ':' :: (p.data ++ ['@', '@'])) := by
        rw [hline]
        rfl
      rw [hd]
      exact markerSplit_complete t.data p.data ht htag hp hterm
    rw [hms]
    rfl

theorem claim_C5_witness :
    isMarkerLine "@@CI_WAIT:1/3@@" = true ↔ markerShape "@@CI_WAIT:1/3@@" :=
  claim_C5_marker_regex.1 "@@CI_WAIT:1/3@@"

end ClankerSpanker
